import Mathlib

/-!
Shallow embedding of the viam-modules/object-tracking repository
(Go sources: object_tracker/sort.go, object_tracker/labels.go,
object_tracker/object_tracker.go) together with theorems settling the
specification claims about it.

Conventions of the embedding:
* Go strings are modelled as `List Char` (`GoStr`); the Go standard-library
  string helpers used by the code (`strings.Split` on `"_"`,
  `strings.ToLower`, `strings.Join`, `strconv.Itoa`) are given executable
  structural definitions.
* `float64` quantities (IOU values, cost-matrix cells, confidences,
  frequencies) are modelled as exact rationals `ℚ`; the source only ever
  compares them with `=` / `<` / `≠ 0`, which is exact in both models.
* Go maps used by the tracker (`classCounter`, `tracks`, `chosenLabels`)
  are modelled as association lists with lookup/insert helpers.
* A Go runtime panic (index out of range, integer division by zero) is
  modelled by an `Option`-valued function returning `none`.
* Go's `for k := range m` over a map enumerates keys in an unspecified
  order; loops of that shape take the enumeration order as an explicit
  parameter, constrained to be a permutation of the key set.
-/

/-- Go strings, modelled as their character sequence. -/
abbrev GoStr := List Char

/-- ASCII lowering of one character (model of what `strings.ToLower` does
to the ASCII class names the tracker handles). -/
def lowerChar (c : Char) : Char :=
  if 'A' ≤ c ∧ c ≤ 'Z' then Char.ofNat (c.toNat + 32) else c

/-- Model of Go `strings.ToLower`. -/
def strToLower (s : GoStr) : GoStr := s.map lowerChar

/-- Model of Go `strings.Split(s, "_")`: split on every underscore.
`strings.Split` always returns at least one piece. -/
def splitUnd : GoStr → List GoStr
  | [] => [[]]
  | c :: rest =>
    if c = '_' then [] :: splitUnd rest
    else
      match splitUnd rest with
      | [] => [[c]]
      | p :: ps => (c :: p) :: ps

/-- Model of Go `strings.Join(parts, "_")`. -/
def joinUnd : List GoStr → GoStr
  | [] => []
  | [p] => p
  | p :: q :: rest => p ++ '_' :: joinUnd (q :: rest)

/-- Digit-accumulator for `natToStr`; the fuel argument makes the
recursion structural (it always suffices, since `n / 10 < n` for `n ≥ 10`). -/
def natToStrAux : ℕ → ℕ → GoStr → GoStr
  | 0, _, acc => acc
  | fuel + 1, n, acc =>
    let d := Char.ofNat (48 + n % 10)
    if n < 10 then d :: acc else natToStrAux fuel (n / 10) (d :: acc)

/-- Model of Go `strconv.Itoa` on the natural numbers the tracker feeds it. -/
def natToStr (n : ℕ) : GoStr := natToStrAux (n + 1) n []

/-! ### Rectangles (Go `image.Rectangle`) -/

/-- Go `image.Rectangle`: an axis-aligned rectangle with integer corner
coordinates `Min = (minX, minY)` and `Max = (maxX, maxY)`. -/
structure Rect where
  minX : ℤ
  minY : ℤ
  maxX : ℤ
  maxY : ℤ
deriving DecidableEq, Repr

/-- Go `image.ZR`, the zero rectangle. -/
def Rect.zero : Rect := ⟨0, 0, 0, 0⟩

/-- Go `Rectangle.Dx`. -/
def Rect.dx (r : Rect) : ℤ := r.maxX - r.minX

/-- Go `Rectangle.Dy`. -/
def Rect.dy (r : Rect) : ℤ := r.maxY - r.minY

/-- Go `Rectangle.Empty`: `r.Min.X >= r.Max.X || r.Min.Y >= r.Max.Y`. -/
def Rect.isEmpty (r : Rect) : Bool := r.maxX ≤ r.minX ∨ r.maxY ≤ r.minY

/-- Go `Rectangle.Intersect`: clamp the corners together, and return the
zero rectangle when the clamped result is empty. -/
def Rect.intersect (r s : Rect) : Rect :=
  let t : Rect :=
    ⟨max r.minX s.minX, max r.minY s.minY, min r.maxX s.maxX, min r.maxY s.maxY⟩
  if t.isEmpty then Rect.zero else t

/-- Go `Rectangle.Union`: the smallest rectangle containing both (the
bounding rectangle), with the empty-argument special cases of the source. -/
def Rect.union (r s : Rect) : Rect :=
  if r.isEmpty then s
  else if s.isEmpty then r
  else ⟨min r.minX s.minX, min r.minY s.minY, max r.maxX s.maxX, max r.maxY s.maxY⟩

/-- `IOU` from sort.go: intersection area over the area of the `Union`
rectangle, with an early `0` return when the intersection is empty.
The `float64` quotient of two integer areas is the exact rational
`Rat.divInt`. -/
def IOU (r1 r2 : Rect) : ℚ :=
  let intersection := r1.intersect r2
  if intersection.isEmpty then 0
  else
    let union := r1.union r2
    Rat.divInt (intersection.dx * intersection.dy) (union.dx * union.dy)

/-! ### Detections and tracks -/

/-- Go `objdet.Detection` (the parts the tracker reads and writes): a pixel
bounding box, a confidence score and a label string.  The optional
normalized bounding box only feeds `ImageBoundsFromDet`, which never
changes the box/score/label data modelled here. -/
structure Detection where
  bbox : Rect
  score : ℚ
  label : GoStr
deriving DecidableEq, Repr

/-- Modelled from the spec: the `track` struct (tracks.go is not under
src/).  "Track: a detection plus a persistence counter (consecutive
successful matches) and a creation timestamp"; the timestamp lives inside
the label string, so the struct carries the detection and the counter. -/
structure Track where
  det : Detection
  persistence : ℕ
deriving DecidableEq, Repr

instance : Inhabited Track := ⟨⟨⟨0, 0, 0, 0⟩, 0, []⟩, 0⟩

/-- Modelled from the spec: the stability threshold ("configurable,
default 3 consecutive matched frames"); its definition is not under src/. -/
def stabilityThreshold : ℕ := 3

/-- Modelled from the spec: `track.isStable` (not under src/): persistence
at or above the stability threshold. -/
def Track.isStable (tr : Track) : Bool := stabilityThreshold ≤ tr.persistence

/-- Modelled from the spec: `track.addPersistence` (not under src/):
increment the consecutive-successful-match counter. -/
def Track.addPersistence (tr : Track) : Track :=
  { tr with persistence := tr.persistence + 1 }

/-- `ReplaceLabel` from labels.go: an almost identical track whose
detection carries the new label (box and score kept; `clone` copies the
persistence counter). -/
def ReplaceLabel (tr : Track) (label : GoStr) : Track :=
  { tr with det := { tr.det with label := label } }

/-- `ReplaceBoundingBox` from labels.go: an almost identical track whose
detection carries the new bounding box (label and score kept). -/
def ReplaceBoundingBox (tr : Track) (bb : Rect) : Track :=
  { tr with det := { tr.det with bbox := bb } }

/-! ### Association lists: the tracker's Go maps -/

/-- Lookup in a Go map modelled as an association list
(`m[k]` together with the `ok` flag as an `Option`). -/
def lookupA {α : Type} : List (GoStr × α) → GoStr → Option α
  | [], _ => none
  | (k, v) :: rest, key => if k = key then some v else lookupA rest key

/-- Map write `m[k] = v` on the association-list model. -/
def insertA {α : Type} : List (GoStr × α) → GoStr → α → List (GoStr × α)
  | [], key, v => [(key, v)]
  | (k, w) :: rest, key, v =>
    if k = key then (key, v) :: rest else (k, w) :: insertA rest key v

theorem lookupA_insertA_self {α : Type} (m : List (GoStr × α)) (k : GoStr) (v : α) :
    lookupA (insertA m k v) k = some v := by
  induction m with
  | nil => simp [insertA, lookupA]
  | cons hd tl ih =>
    obtain ⟨k', w⟩ := hd
    by_cases h : k' = k
    · simp [insertA, lookupA, h]
    · simp [insertA, lookupA, h, ih]

theorem lookupA_insertA_ne {α : Type} (m : List (GoStr × α)) (k k' : GoStr) (v : α)
    (h : k ≠ k') : lookupA (insertA m k v) k' = lookupA m k' := by
  induction m with
  | nil => simp [insertA, lookupA, h]
  | cons hd tl ih =>
    obtain ⟨k'', w⟩ := hd
    by_cases h2 : k'' = k
    · subst h2
      simp [insertA, lookupA, h]
    · simp [insertA, lookupA, h2, ih]

/-! ### Tracker state (the label-manager-owned fields of `myTracker`) -/

/-- The mutable label-manager state of `myTracker`: the per-class ordinal
counter and the per-identity track history, both Go maps.  (The remaining
`myTracker` fields are resource handles, atomics and the cycle-duration
list; the last is passed explicitly where needed.) -/
structure TrackerState where
  classCounter : List (GoStr × ℕ)
  tracks : List (GoStr × List Track)
deriving DecidableEq, Repr

/-- The state `newTracker` starts from: empty maps. -/
def TrackerState.initial : TrackerState := ⟨[], []⟩

/- `GetTimestamp` returns `time.Now()` formatted; the embedding passes the
formatted timestamp of the call as an explicit argument `now`. -/

/-- `RenameFirstTime` from labels.go: mint a fresh identity for a new
object.  The base class is the lowercased first underscore-separated
segment of the current label; the class counter is set to `0` on first
sight of the class and incremented otherwise; the new label is
`base_ordinal_timestamp`; a new singleton (tentative) history entry is
registered under `base_ordinal`. -/
def RenameFirstTime (t : TrackerState) (now : GoStr) (det : Track) :
    TrackerState × Track :=
  let baseLabel := strToLower ((splitUnd det.det.label).headD [])
  let cc :=
    match lookupA t.classCounter baseLabel with
    | none => insertA t.classCounter baseLabel 0
    | some classCount => insertA t.classCounter baseLabel (classCount + 1)
  let countLabel := baseLabel ++ '_' :: natToStr ((lookupA cc baseLabel).getD 0)
  let label := countLabel ++ '_' :: now
  let out := ReplaceLabel det label
  (⟨cc, insertA t.tracks countLabel [out]⟩, out)

/-- `getTrackingLabel` from labels.go:
`strings.Join(strings.Split(label, "_")[0:2], "_")`.  Go's `Split` returns
a slice with len = cap = number of segments, so the slice expression
`[0:2]` panics ("slice bounds out of range") when the label has fewer than
two underscore-separated segments; the panic is modelled by `none`.  With
two or more segments, `[0:2]` is exactly the first two. -/
def getTrackingLabel (tr : Track) : Option GoStr :=
  let parts := splitUnd tr.det.label
  if 2 ≤ parts.length then some (joinUnd (parts.take 2)) else none

/-- `UpdateTrack` from labels.go: clone the old matched track with the new
bounding box, bump persistence, append the snapshot to the history entry
of its tracking label when that entry exists, and report whether the track
just became stable.  The `getTrackingLabel` slice-bounds panic (label with
fewer than two underscore segments) propagates as `none` — it fires before
the history-map lookup. -/
def UpdateTrack (t : TrackerState) (nextTrack oldMatchedTrack : Track) :
    Option (TrackerState × Track × Bool) :=
  let wasStable := oldMatchedTrack.isStable
  let newTrack := (ReplaceBoundingBox oldMatchedTrack nextTrack.det.bbox).addPersistence
  match getTrackingLabel newTrack with
  | none => none
  | some countLabel =>
    let t' :=
      match lookupA t.tracks countLabel with
      | some trackSlice =>
          { t with tracks := insertA t.tracks countLabel (trackSlice ++ [newTrack]) }
      | none => t
    let isNowStable := newTrack.isStable
    some (t', newTrack, wasStable != isNowStable)

/-- The label of the box-updated, persistence-bumped track is the old
matched track's label (`ReplaceBoundingBox` and `addPersistence` keep it). -/
theorem newTrack_label (nextTrack oldMatchedTrack : Track) :
    ((ReplaceBoundingBox oldMatchedTrack nextTrack.det.bbox).addPersistence).det.label =
      oldMatchedTrack.det.label := rfl

/-- `UpdateTrack` cannot panic when the old matched track's label has at
least two underscore-separated segments (as every label the tracker mints
does: `base_ordinal_timestamp`). -/
theorem updateTrack_isSome_of_label (t : TrackerState) (nextTrack oldMatchedTrack : Track)
    (h : 2 ≤ (splitUnd oldMatchedTrack.det.label).length) :
    ∃ r, UpdateTrack t nextTrack oldMatchedTrack = some r := by
  cases hg : getTrackingLabel
      ((ReplaceBoundingBox oldMatchedTrack nextTrack.det.bbox).addPersistence) with
  | none =>
    simp only [getTrackingLabel, newTrack_label] at hg
    rw [if_pos h] at hg
    exact Option.noConfusion hg
  | some countLabel =>
    simp only [UpdateTrack, hg]
    split <;> exact ⟨_, rfl⟩

example : (RenameFirstTime TrackerState.initial "ts".data
    ⟨⟨⟨0, 0, 2, 2⟩, 1, "Person".data⟩, 0⟩).2.det.label = "person_0_ts".data := by decide
example : IOU ⟨0, 0, 2, 2⟩ ⟨1, 1, 3, 3⟩ = Rat.divInt 1 9 := by decide
example : IOU ⟨0, 0, 2, 2⟩ ⟨5, 5, 7, 7⟩ = 0 := by decide
example : splitUnd "person_3_x".data = ["person".data, "3".data, "x".data] := by decide
example : natToStr 12 = "12".data := by decide
example : strToLower "Person".data = "person".data := by decide
example : getTrackingLabel ⟨⟨⟨0, 0, 2, 2⟩, 1, "person_3_x".data⟩, 0⟩ =
    some "person_3".data := by decide
example : getTrackingLabel ⟨⟨⟨0, 0, 2, 2⟩, 1, "person".data⟩, 0⟩ = none := by decide

/-! ### Cost matrix and filter (sort.go) -/

/-- `BuildMatchingMatrix` from sort.go: the R×C cost matrix for the
Hungarian solver, cell (i, j) = −IOU(old box i, new box j). -/
def BuildMatchingMatrix (oldDetections newDetections : List Detection) :
    List (List ℚ) :=
  oldDetections.map fun oldD => newDetections.map fun newD => -IOU oldD.bbox newD.bbox

/-- Modelled from the spec: `FilterDetections` (the three-argument filter
the tracker applies to every frame) is not under src/ — src/ only holds its
predecessor `NewAdvancedFilter`, which lacks the global minimum.  Spec
§4.1: "Output: the subset of detections whose lowercase label is a key in
the allow-list (when non-empty) and whose score strictly exceeds both the
per-class minimum and the global minimum.  Relative order of surviving
detections is preserved.  An empty allow-list is a no-op pass-through." -/
def FilterDetections (chosenLabels : List (GoStr × ℚ)) (detections : List Detection)
    (minConfidence : ℚ) : List Detection :=
  if chosenLabels.length < 1 then detections
  else
    detections.filter fun d =>
      match lookupA chosenLabels (strToLower d.label) with
      | some minConf => decide (minConf < d.score) && decide (minConfidence < d.score)
      | none => false

/-! ### Configuration (object_tracker.go) -/

/-- `DefaultMinConfidence` from object_tracker.go. -/
def DefaultMinConfidence : ℚ := Rat.divInt 1 5

/-- `DefaultMaxFrequency` from object_tracker.go. -/
def DefaultMaxFrequency : ℚ := 10

/-- The native `Config` of the tracker (object_tracker.go): resource names
for the camera and detector, the class allow-list, the maximum polling
frequency in Hz and the optional global minimum confidence. -/
structure Config where
  cameraName : GoStr
  detectorName : GoStr
  chosenLabels : List (GoStr × ℚ)
  maxFrequency : ℚ
  minConfidence : Option ℚ
deriving DecidableEq

/-- The distinct error exits of `Config.Validate` and `Reconfigure`. -/
inductive ConfigError where
  | missingCamera
  | missingDetector
  | badFrequency
  | badConfidence
deriving DecidableEq, Repr

/-- `Config.Validate` from object_tracker.go: the camera and detector
names are required; on success their resource names are returned as the
implicit dependencies. -/
def Config.Validate (cfg : Config) : Except ConfigError (List GoStr) :=
  if cfg.cameraName = [] then .error .missingCamera
  else if cfg.detectorName = [] then .error .missingDetector
  else .ok [cfg.cameraName, cfg.detectorName]

/-- The validated settings `Reconfigure` writes into `myTracker`
(the pure configuration fields; resource handles are I/O and stay out of
the shallow embedding). -/
structure TrackerSettings where
  frequency : ℚ
  minConfidence : ℚ
  chosenLabels : List (GoStr × ℚ)
deriving DecidableEq

/-- The validation/defaulting logic of `Reconfigure` from
object_tracker.go: a negative frequency is rejected (`0` is kept and
defaulted later); an absent minimum confidence defaults to
`DefaultMinConfidence`; a minimum confidence outside [0, 1] is rejected. -/
def Reconfigure (cfg : Config) : Except ConfigError TrackerSettings :=
  if cfg.maxFrequency < 0 then .error .badFrequency
  else
    let minConfidence :=
      match cfg.minConfidence with
      | some c => c
      | none => DefaultMinConfidence
    if minConfidence < 0 ∨ 1 < minConfidence then .error .badConfidence
    else .ok ⟨cfg.maxFrequency, minConfidence, cfg.chosenLabels⟩

/-- The configuration phase of `newTracker` from object_tracker.go:
`Config.Validate` runs first (at config parse time), then `Reconfigure`;
after a successful `Reconfigure` a zero frequency is replaced by
`DefaultMaxFrequency`.  Only after this phase succeeds does `newTracker`
start the polling loop (`viamutils.ManagedGo` is the last step). -/
def newTrackerSettings (cfg : Config) : Except ConfigError TrackerSettings :=
  match cfg.Validate with
  | .error e => .error e
  | .ok _ =>
    match Reconfigure cfg with
    | .error e => .error e
    | .ok s =>
      if s.frequency = 0 then .ok { s with frequency := DefaultMaxFrequency } else .ok s

/-! ### DoCommand statistics (object_tracker.go) -/

/-- `DoCommand` from object_tracker.go, on the cycle-duration list
`timeStats` (durations as integer nanoseconds): fold out the extrema
(seeded with 10s and 10ns as in the source) and the sum, then compute the
mean as `int64(sum) / n`.  Go's integer division panics when `n = 0`;
the panic is modelled by `none`. -/
def DoCommand (timeStats : List ℤ) : Option (ℤ × ℤ × ℤ × ℤ) :=
  let tmin0 : ℤ := 10000000000
  let tmax0 : ℤ := 10
  let n : ℤ := timeStats.length
  let folded :=
    timeStats.foldl
      (fun (acc : ℤ × ℤ × ℤ) tt =>
        (if tt < acc.1 then tt else acc.1,
         if acc.2.1 < tt then tt else acc.2.1,
         acc.2.2 + tt))
      (tmin0, tmax0, 0)
  if n = 0 then none
  else some (folded.2.1, folded.1, folded.2.2 / n, n)

example : DoCommand [] = none := by decide
example : DoCommand [5, 7] = some (10, 5, 6, 2) := by decide

/-! ### Claim C5: the filter stage -/

/-- The claim's survival condition: the lowercase label is a key of the
allow-list and the score strictly exceeds both the per-class minimum and
the global minimum. -/
def survives (chosenLabels : List (GoStr × ℚ)) (minConfidence : ℚ) (d : Detection) : Prop :=
  ∃ m, lookupA chosenLabels (strToLower d.label) = some m ∧
    m < d.score ∧ minConfidence < d.score

/-- C5: with a non-empty allow-list the filter keeps exactly the
detections satisfying `survives`, as a sublist of the input (relative
order preserved); an empty allow-list returns the input unchanged
(also for an empty input list). -/
theorem filterDetections_spec (chosenLabels : List (GoStr × ℚ))
    (detections : List Detection) (minConfidence : ℚ) :
    (chosenLabels = [] →
      FilterDetections chosenLabels detections minConfidence = detections) ∧
    (FilterDetections chosenLabels detections minConfidence).Sublist detections ∧
    (chosenLabels ≠ [] →
      ∀ d, d ∈ FilterDetections chosenLabels detections minConfidence ↔
        d ∈ detections ∧ survives chosenLabels minConfidence d) := by
  refine ⟨?_, ?_, ?_⟩
  · intro h
    simp [FilterDetections, h]
  · by_cases h : chosenLabels.length < 1
    · simp [FilterDetections, h]
    · simp only [FilterDetections, h, if_false]
      exact List.filter_sublist _
  · intro h d
    have hlen : ¬chosenLabels.length < 1 := by
      cases chosenLabels with
      | nil => exact absurd rfl h
      | cons a l => simp
    simp only [FilterDetections, hlen, if_false, List.mem_filter, survives]
    constructor
    · rintro ⟨hmem, hp⟩
      refine ⟨hmem, ?_⟩
      cases hlook : lookupA chosenLabels (strToLower d.label) with
      | none => rw [hlook] at hp; simp at hp
      | some m =>
        rw [hlook] at hp
        simp only [Bool.and_eq_true, decide_eq_true_eq] at hp
        exact ⟨m, rfl, hp.1, hp.2⟩
    · rintro ⟨hmem, m, hlook, h1, h2⟩
      refine ⟨hmem, ?_⟩
      rw [hlook]
      simp [h1, h2]

/-- C5 witness: with allow-list `{person ↦ 1/2}` and global minimum 3/5,
the detection labeled `Person` scoring 7/10 (above both minima) is kept;
evaluated through the membership characterization of the theorem. -/
theorem filterDetections_spec_witness :
    (⟨⟨0, 0, 2, 2⟩, Rat.divInt 7 10, "Person".data⟩ : Detection) ∈
      FilterDetections [("person".data, Rat.divInt 1 2)]
        [⟨⟨0, 0, 2, 2⟩, Rat.divInt 7 10, "Person".data⟩,
         ⟨⟨0, 0, 2, 2⟩, Rat.divInt 11 20, "person".data⟩] (Rat.divInt 3 5) :=
  ((filterDetections_spec [("person".data, Rat.divInt 1 2)]
      [⟨⟨0, 0, 2, 2⟩, Rat.divInt 7 10, "Person".data⟩,
       ⟨⟨0, 0, 2, 2⟩, Rat.divInt 11 20, "person".data⟩] (Rat.divInt 3 5)).2.2 (by decide)
    ⟨⟨0, 0, 2, 2⟩, Rat.divInt 7 10, "Person".data⟩).mpr
    ⟨by decide, ⟨Rat.divInt 1 2, by decide, by decide, by decide⟩⟩

/-! ### RenameFromMatches (labels.go)

The function has two loops.  The first walks the solver output `matches`
(index = previous-track row, value = assigned new-detection column or the
sentinel `-1`): a non-sentinel pair is looked up in the cost matrix —
Go's `matchinMtx[oldIdx][newIdx]` panics (modelled: `none`) when the row
or column index is outside the matrix — and, when its cost is non-zero
and its indices fit the track lists, `UpdateTrack` runs and the column is
deleted from the `notUsed` map.  The second loop ranges over the `notUsed`
Go map — in an unspecified enumeration order, here the explicit `order`
argument, constrained in the theorems to be a permutation of the
remaining indices — and mints a fresh identity for each. -/

/-- Accumulator of the match loop of `RenameFromMatches`: tracker state,
updated-but-tentative tracks, newly-stable tracks, and the new-detection
indices already deleted from `notUsed`. -/
structure MatchAcc where
  st : TrackerState
  upd : List Track
  stab : List Track
  used : List ℕ
deriving DecidableEq, Repr

/-- One iteration of the match loop of `RenameFromMatches` on the pair
`(oldIdx, newIdx)`; `none` models a Go index-out-of-range panic. -/
def matchedStep (oldDets newDets : List Track) (mtx : List (List ℚ))
    (oldIdx : ℕ) (newIdx : ℤ) (acc : MatchAcc) : Option MatchAcc :=
  if newIdx = -1 then some acc
  else
    match mtx[oldIdx]? with
    | none => none
    | some row =>
      if 0 ≤ newIdx ∧ newIdx < (row.length : ℤ) then
        let j := newIdx.toNat
        if row.getD j 0 ≠ 0 then
          if 0 ≤ newIdx ∧ j < newDets.length ∧ oldIdx < oldDets.length then
            match UpdateTrack acc.st (newDets.getD j default) (oldDets.getD oldIdx default) with
            | none => none
            | some r =>
              if r.2.2 then some ⟨r.1, acc.upd, acc.stab ++ [r.2.1], acc.used ++ [j]⟩
              else some ⟨r.1, acc.upd ++ [r.2.1], acc.stab, acc.used ++ [j]⟩
          else some acc
        else some acc
      else none

/-- The match loop of `RenameFromMatches` over the tail of `matches`
starting at row `oldIdx`. -/
def matchedLoop (oldDets newDets : List Track) (mtx : List (List ℚ)) :
    ℕ → List ℤ → MatchAcc → Option MatchAcc
  | _, [], acc => some acc
  | oldIdx, newIdx :: rest, acc =>
    match matchedStep oldDets newDets mtx oldIdx newIdx acc with
    | none => none
    | some acc' => matchedLoop oldDets newDets mtx (oldIdx + 1) rest acc'

/-- The key set of the `notUsed` map after the match loop: every
new-detection index not deleted by a real match (listed here in ascending
order; Go enumerates them in an unspecified order). -/
def unmatchedIdx (numNew : ℕ) (used : List ℕ) : List ℕ :=
  (List.range numNew).filter fun i => !(used.contains i)

/-- The fresh loop of `RenameFromMatches`: mint an identity for each index
of `order`, writing the renamed track back into the `newDets` slice. -/
def freshLoop (now : GoStr) :
    List ℕ → TrackerState → List Track → List Track →
    TrackerState × List Track × List Track
  | [], st, newDets, fresh => (st, newDets, fresh)
  | idx :: rest, st, newDets, fresh =>
    let r := RenameFirstTime st now (newDets.getD idx default)
    freshLoop now rest r.1 (newDets.set idx r.2) (fresh ++ [r.2])

/-- `RenameFromMatches` from labels.go (the four-argument version with the
cost matrix).  Result: the tracker state, the mutated `newDets` slice, and
the three returned partitions `(updatedTracks, newlyStableTracks,
freshTracks)`; `none` models a Go panic.  `order` is the enumeration order
of the `notUsed` map in the fresh loop. -/
def RenameFromMatches (t : TrackerState) (now : GoStr) (order : List ℕ)
    (matchList : List ℤ) (matchinMtx : List (List ℚ)) (oldDets newDets : List Track) :
    Option (TrackerState × List Track × List Track × List Track × List Track) :=
  match matchedLoop oldDets newDets matchinMtx 0 matchList ⟨t, [], [], []⟩ with
  | none => none
  | some acc =>
    let r := freshLoop now order acc.st newDets []
    some (r.1, r.2.1, acc.upd, acc.stab, r.2.2)

example :
    RenameFromMatches TrackerState.initial "ts".data [0, 1] [] [] []
      [⟨⟨⟨0, 0, 2, 2⟩, 1, "person".data⟩, 0⟩, ⟨⟨⟨5, 5, 7, 7⟩, 1, "person".data⟩, 0⟩] ≠
    RenameFromMatches TrackerState.initial "ts".data [1, 0] [] [] []
      [⟨⟨⟨0, 0, 2, 2⟩, 1, "person".data⟩, 0⟩, ⟨⟨⟨5, 5, 7, 7⟩, 1, "person".data⟩, 0⟩] := by
  decide

example :
    RenameFromMatches TrackerState.initial "ts".data [] [-2] [[Rat.divInt (-1) 2]]
      [⟨⟨⟨0, 0, 2, 2⟩, 1, "person".data⟩, 0⟩] [⟨⟨⟨0, 0, 2, 2⟩, 1, "person".data⟩, 0⟩] =
      none := by decide

/-! ### Claim C2: the IOU formula -/

/-- The area of a rectangle (`Dx() * Dy()`). -/
def rectArea (r : Rect) : ℤ := r.dx * r.dy

/-- Claim-side definition, following the claim's words rather than the
source: the area of the set union of two overlapping rectangles,
`|A ∪ B| = |A| + |B| − |A ∩ B|`. -/
def setUnionArea (r1 r2 : Rect) : ℤ :=
  rectArea r1 + rectArea r2 - rectArea (r1.intersect r2)

/-- C2 (counterexample): for the overlapping rectangles A = (0,0)-(2,2)
and B = (1,1)-(3,3) the code returns 1/9 — intersection area 1 over the
area 9 of the bounding `Union` rectangle (0,0)-(3,3) — not the
intersection area over the area 7 of the set union A ∪ B, so `IOU` does
not equal intersectionArea / (set-)unionArea. -/
theorem iou_counterexample :
    ¬(Rect.intersect ⟨0, 0, 2, 2⟩ ⟨1, 1, 3, 3⟩).isEmpty = true ∧
    IOU ⟨0, 0, 2, 2⟩ ⟨1, 1, 3, 3⟩ ≠
      (rectArea (Rect.intersect ⟨0, 0, 2, 2⟩ ⟨1, 1, 3, 3⟩) : ℚ) /
        (setUnionArea ⟨0, 0, 2, 2⟩ ⟨1, 1, 3, 3⟩ : ℚ) := by
  refine ⟨by decide, ?_⟩
  have h1 : IOU ⟨0, 0, 2, 2⟩ ⟨1, 1, 3, 3⟩ = Rat.divInt 1 9 := by decide
  have h2 : rectArea (Rect.intersect ⟨0, 0, 2, 2⟩ ⟨1, 1, 3, 3⟩) = 1 := by decide
  have h3 : setUnionArea ⟨0, 0, 2, 2⟩ ⟨1, 1, 3, 3⟩ = 7 := by decide
  rw [h1, h2, h3, Rat.divInt_eq_div]
  norm_num

/-- C2 (amended): for every pair of overlapping rectangles, `IOU` equals
the intersection area divided by the area of the bounding `Union`
rectangle (the smallest rectangle containing both), and for every pair of
non-overlapping rectangles it returns 0 without dividing (the empty check
guards the division). -/
theorem iou_eq_inter_div_boundingUnion (r1 r2 : Rect) :
    (¬(r1.intersect r2).isEmpty = true →
      IOU r1 r2 = (rectArea (r1.intersect r2) : ℚ) / (rectArea (r1.union r2) : ℚ)) ∧
    ((r1.intersect r2).isEmpty = true → IOU r1 r2 = 0) := by
  constructor
  · intro h
    simp only [IOU, h, if_false, Rat.divInt_eq_div]
    push_cast [rectArea, Rect.dx, Rect.dy]
    ring_nf
  · intro h
    simp [IOU, h]

/-- C2 witness: the amended formula evaluated on the overlapping pair
A = (0,0)-(2,2), B = (1,1)-(3,3). -/
theorem iou_eq_inter_div_boundingUnion_witness :
    ¬(Rect.intersect ⟨0, 0, 2, 2⟩ ⟨1, 1, 3, 3⟩).isEmpty = true ∧
    IOU ⟨0, 0, 2, 2⟩ ⟨1, 1, 3, 3⟩ =
      (rectArea (Rect.intersect ⟨0, 0, 2, 2⟩ ⟨1, 1, 3, 3⟩) : ℚ) /
        (rectArea (Rect.union ⟨0, 0, 2, 2⟩ ⟨1, 1, 3, 3⟩) : ℚ) :=
  ⟨by decide, (iou_eq_inter_div_boundingUnion ⟨0, 0, 2, 2⟩ ⟨1, 1, 3, 3⟩).1 (by decide)⟩

/-! ### Claim C6: shape and contents of the cost matrix -/

instance : Inhabited Detection := ⟨⟨⟨0, 0, 0, 0⟩, 0, []⟩⟩

/-- C6: for all inputs (including empty ones on either side, which give a
valid degenerate matrix rather than an error), `BuildMatchingMatrix`
returns a matrix with exactly one row per previous track, each row with
one cell per new detection, and cell (i, j) = −IOU(old box i, new box j);
rectangular shapes R ≠ C arise whenever the list lengths differ. -/
theorem buildMatchingMatrix_spec (oldDetections newDetections : List Detection) :
    (BuildMatchingMatrix oldDetections newDetections).length = oldDetections.length ∧
    (∀ row ∈ BuildMatchingMatrix oldDetections newDetections,
      row.length = newDetections.length) ∧
    ∀ i j, i < oldDetections.length → j < newDetections.length →
      ((BuildMatchingMatrix oldDetections newDetections).getD i []).getD j 0 =
        -IOU (oldDetections.getD i default).bbox (newDetections.getD j default).bbox := by
  refine ⟨by simp [BuildMatchingMatrix], ?_, ?_⟩
  · intro row hrow
    simp only [BuildMatchingMatrix, List.mem_map] at hrow
    obtain ⟨d, _, rfl⟩ := hrow
    simp
  · intro i j hi hj
    simp [BuildMatchingMatrix, List.getD_eq_getElem?_getD, List.getElem?_map,
      List.getElem?_eq_getElem, hi, hj]

/-- C6 witness: a concrete 1×2 (rectangular) instance. -/
theorem buildMatchingMatrix_spec_witness :
    ((BuildMatchingMatrix [⟨⟨0, 0, 2, 2⟩, 1, "person".data⟩]
        [⟨⟨0, 0, 2, 2⟩, 1, "person".data⟩, ⟨⟨5, 5, 7, 7⟩, 1, "person".data⟩]).length = 1) ∧
    ((BuildMatchingMatrix [⟨⟨0, 0, 2, 2⟩, 1, "person".data⟩]
        [⟨⟨0, 0, 2, 2⟩, 1, "person".data⟩, ⟨⟨5, 5, 7, 7⟩, 1, "person".data⟩]).getD 0 []).getD 1 0 =
      -IOU ⟨0, 0, 2, 2⟩ ⟨5, 5, 7, 7⟩ :=
  ⟨(buildMatchingMatrix_spec _ _).1,
    (buildMatchingMatrix_spec [⟨⟨0, 0, 2, 2⟩, 1, "person".data⟩]
        [⟨⟨0, 0, 2, 2⟩, 1, "person".data⟩, ⟨⟨5, 5, 7, 7⟩, 1, "person".data⟩]).2.2 0 1
      (by decide) (by decide)⟩

/-! ### Claim C7: configuration validation and defaults -/

/-- C7: configuration fails exactly when the camera reference is missing,
the detector reference is missing, the polling frequency is negative, or
the (configured or defaulted) minimum confidence lies outside [0, 1]; on
success the minimum confidence is the configured one (default
`DefaultMinConfidence` = 0.2 when omitted) and a zero frequency is
replaced by `DefaultMaxFrequency` = 10 Hz.  All of this happens in
`Config.Validate` / `Reconfigure`, i.e. before `newTracker` starts the
polling loop. -/
theorem newTrackerSettings_eq (cfg : Config) :
    newTrackerSettings cfg =
      (if cfg.cameraName = [] then .error .missingCamera
      else if cfg.detectorName = [] then .error .missingDetector
      else if cfg.maxFrequency < 0 then .error .badFrequency
      else if cfg.minConfidence.getD DefaultMinConfidence < 0 ∨
          1 < cfg.minConfidence.getD DefaultMinConfidence then .error .badConfidence
      else .ok ⟨if cfg.maxFrequency = 0 then DefaultMaxFrequency else cfg.maxFrequency,
        cfg.minConfidence.getD DefaultMinConfidence, cfg.chosenLabels⟩) := by
  have hconf : (match cfg.minConfidence with
      | some c => c
      | none => DefaultMinConfidence) = cfg.minConfidence.getD DefaultMinConfidence := by
    cases cfg.minConfidence <;> rfl
  by_cases h1 : cfg.cameraName = []
  · simp [newTrackerSettings, Config.Validate, h1]
  by_cases h2 : cfg.detectorName = []
  · simp [newTrackerSettings, Config.Validate, h1, h2]
  by_cases h3 : cfg.maxFrequency < 0
  · simp [newTrackerSettings, Config.Validate, Reconfigure, h1, h2, h3]
  by_cases h4 : cfg.minConfidence.getD DefaultMinConfidence < 0 ∨
      1 < cfg.minConfidence.getD DefaultMinConfidence
  · simp [newTrackerSettings, Config.Validate, Reconfigure, hconf, h1, h2, h3, h4]
  by_cases h5 : cfg.maxFrequency = 0
  · simp [newTrackerSettings, Config.Validate, Reconfigure, hconf, h1, h2, h3, h4, h5]
  · simp [newTrackerSettings, Config.Validate, Reconfigure, hconf, h1, h2, h3, h4, h5]

theorem newTrackerSettings_spec (cfg : Config) :
    ((∃ e, newTrackerSettings cfg = .error e) ↔
      cfg.cameraName = [] ∨ cfg.detectorName = [] ∨ cfg.maxFrequency < 0 ∨
        cfg.minConfidence.getD DefaultMinConfidence < 0 ∨
        1 < cfg.minConfidence.getD DefaultMinConfidence) ∧
    ∀ s, newTrackerSettings cfg = .ok s →
      s.minConfidence = cfg.minConfidence.getD DefaultMinConfidence ∧
      s.frequency =
        (if cfg.maxFrequency = 0 then DefaultMaxFrequency else cfg.maxFrequency) := by
  rw [newTrackerSettings_eq]
  by_cases h1 : cfg.cameraName = []
  · simp [h1]
  by_cases h2 : cfg.detectorName = []
  · simp [h1, h2]
  by_cases h3 : cfg.maxFrequency < 0
  · simp [h1, h2, h3]
  by_cases h4 : cfg.minConfidence.getD DefaultMinConfidence < 0 ∨
      1 < cfg.minConfidence.getD DefaultMinConfidence
  · rcases h4 with h4 | h4 <;> simp [h1, h2, h3, h4]
  · constructor
    · simp [h1, h2, h3, h4]
    · intro s hs
      rw [if_neg h1, if_neg h2, if_neg h3, if_neg h4] at hs
      cases hs
      exact ⟨rfl, rfl⟩

/-- C7 witness: an omitted minimum confidence and a zero frequency get the
documented defaults, and an empty camera name is rejected. -/
theorem newTrackerSettings_spec_witness :
    (∀ s, newTrackerSettings ⟨"cam".data, "det".data, [], 0, none⟩ = .ok s →
      s.minConfidence = DefaultMinConfidence ∧ s.frequency = DefaultMaxFrequency) ∧
    ∃ e, newTrackerSettings ⟨[], "det".data, [], 0, none⟩ = .error e := by
  constructor
  · intro s hs
    have h := (newTrackerSettings_spec ⟨"cam".data, "det".data, [], 0, none⟩).2 s hs
    simpa using h
  · exact (newTrackerSettings_spec ⟨[], "det".data, [], 0, none⟩).1.mpr (Or.inl rfl)

/-! ### Claim C9: DoCommand on an empty statistics list -/

/-- C9 (code bug): `DoCommand` computes the mean as `int64(sum) / n`
without guarding `n = 0`, so with an empty `timeStats` list — the state
every tracker is in until its first polling cycle completes, and again
after every `Reconfigure` — Go's integer division panics (modelled by
`none`); on every non-empty list it succeeds.  The claim that the stats
surface is total over every reachable state is exactly what this refutes. -/
theorem doCommand_empty_panics :
    DoCommand [] = none ∧ ∀ timeStats : List ℤ, timeStats ≠ [] → (DoCommand timeStats).isSome := by
  constructor
  · decide
  · intro ts hts
    cases ts with
    | nil => exact absurd rfl hts
    | cons a l =>
      simp only [DoCommand]
      split
      · next hn =>
        simp only [List.length_cons] at hn
        omega
      · simp

/-- C9 witness: the division-by-zero guard fails only on the empty list. -/
theorem doCommand_empty_panics_witness :
    DoCommand [] = none ∧ (DoCommand [5, 7]).isSome :=
  ⟨doCommand_empty_panics.1, doCommand_empty_panics.2 [5, 7] (by decide)⟩

/-! ### Claim C10: UpdateTrack only appends to an existing history entry -/

/-- C10 (counterexample): for a track labeled `person` — one underscore
segment, so its tracking-label entry is necessarily absent from the
history map — `UpdateTrack` does not return the updated track and flag:
`getTrackingLabel`'s slice expression `[0:2]` panics (slice bounds out of
range, modelled `none`) before the map lookup is reached. -/
theorem updateTrack_panic_counterexample :
    UpdateTrack TrackerState.initial ⟨⟨⟨1, 1, 3, 3⟩, 1, "person".data⟩, 0⟩
      ⟨⟨⟨0, 0, 2, 2⟩, 1, "person".data⟩, 2⟩ = none := by decide

/-- C10 (amended): provided the old matched track's label has at least two
underscore-separated segments — true of every label the tracker mints
(`base_ordinal_timestamp`) — `UpdateTrack` appends the updated snapshot to
the history map only when an entry for the track's tracking label already
exists; when the label is absent the returned state is exactly the input
state (history map, class counters and all), and in both cases the
function still returns the updated track (new box, persistence + 1) and
its newly-stable flag.  With fewer than two segments `UpdateTrack` panics
inside `getTrackingLabel` before the map lookup. -/
theorem updateTrack_spec (t : TrackerState) (nextTrack oldMatchedTrack : Track) :
    ((splitUnd oldMatchedTrack.det.label).length < 2 →
      UpdateTrack t nextTrack oldMatchedTrack = none) ∧
    ∀ countLabel,
      getTrackingLabel
          ((ReplaceBoundingBox oldMatchedTrack nextTrack.det.bbox).addPersistence) =
        some countLabel →
      (lookupA t.tracks countLabel = none →
        UpdateTrack t nextTrack oldMatchedTrack =
          some (t, (ReplaceBoundingBox oldMatchedTrack nextTrack.det.bbox).addPersistence,
            oldMatchedTrack.isStable !=
              ((ReplaceBoundingBox oldMatchedTrack nextTrack.det.bbox).addPersistence).isStable)) ∧
      ∀ trackSlice, lookupA t.tracks countLabel = some trackSlice →
        UpdateTrack t nextTrack oldMatchedTrack =
          some ({ t with
              tracks := insertA t.tracks countLabel (trackSlice ++
                [(ReplaceBoundingBox oldMatchedTrack nextTrack.det.bbox).addPersistence]) },
            (ReplaceBoundingBox oldMatchedTrack nextTrack.det.bbox).addPersistence,
            oldMatchedTrack.isStable !=
              ((ReplaceBoundingBox oldMatchedTrack nextTrack.det.bbox).addPersistence).isStable) := by
  constructor
  · intro h
    simp only [UpdateTrack, getTrackingLabel, newTrack_label]
    rw [if_neg (by omega)]
  · intro countLabel hg
    constructor
    · intro hnone
      simp only [UpdateTrack, hg, hnone]
    · intro trackSlice hsome
      simp only [UpdateTrack, hg, hsome]

/-- C10 witness: a minted-style label `person_0_ts` with the empty history
map — the entry is absent, the state comes back unchanged, and the updated
track and its flag are still returned. -/
theorem updateTrack_spec_witness :
    getTrackingLabel ((ReplaceBoundingBox ⟨⟨⟨0, 0, 2, 2⟩, 1, "person_0_ts".data⟩, 2⟩
        (⟨⟨⟨1, 1, 3, 3⟩, 1, "person".data⟩, 0⟩ : Track).det.bbox).addPersistence) =
      some "person_0".data ∧
    UpdateTrack TrackerState.initial ⟨⟨⟨1, 1, 3, 3⟩, 1, "person".data⟩, 0⟩
        ⟨⟨⟨0, 0, 2, 2⟩, 1, "person_0_ts".data⟩, 2⟩ =
      some (TrackerState.initial,
        (ReplaceBoundingBox ⟨⟨⟨0, 0, 2, 2⟩, 1, "person_0_ts".data⟩, 2⟩
          (⟨⟨⟨1, 1, 3, 3⟩, 1, "person".data⟩, 0⟩ : Track).det.bbox).addPersistence,
        (⟨⟨⟨0, 0, 2, 2⟩, 1, "person_0_ts".data⟩, 2⟩ : Track).isStable !=
          ((ReplaceBoundingBox ⟨⟨⟨0, 0, 2, 2⟩, 1, "person_0_ts".data⟩, 2⟩
            (⟨⟨⟨1, 1, 3, 3⟩, 1, "person".data⟩, 0⟩ : Track).det.bbox).addPersistence).isStable) :=
  ⟨by decide,
    (((updateTrack_spec TrackerState.initial ⟨⟨⟨1, 1, 3, 3⟩, 1, "person".data⟩, 0⟩
        ⟨⟨⟨0, 0, 2, 2⟩, 1, "person_0_ts".data⟩, 2⟩).2 "person_0".data (by decide)).1
      (by decide))⟩

/-! ### Claim C4: the class counter across one tracker lifetime -/

/-- The two operations that write the label-manager state during one
tracker lifetime (`newTracker` creates the maps once and `Reconfigure`
never touches them): minting a fresh identity (`RenameFirstTime`) and
updating a matched track (`UpdateTrack`). -/
inductive TrackerOp where
  | mint (now : GoStr) (det : Track)
  | update (nextTrack oldMatchedTrack : Track)

/-- Effect of one operation on the label-manager state.  An update that
panics (old label with fewer than two segments) ends the real run with the
state as it was; the model keeps that state and lets the sequence
continue, so the modelled operation sequences are a superset of the real
ones and the counter invariant is proved over all of them. -/
def applyOp (t : TrackerState) : TrackerOp → TrackerState
  | .mint now det => (RenameFirstTime t now det).1
  | .update nextTrack oldMatchedTrack =>
    ((UpdateTrack t nextTrack oldMatchedTrack).map Prod.fst).getD t

/-- The base class of a detection: the lowercased first underscore
segment of its label (as computed inside `RenameFirstTime`). -/
def baseOf (det : Track) : GoStr := strToLower ((splitUnd det.det.label).headD [])

/-- How many identities of class `c` a sequence of operations mints. -/
def countMints (c : GoStr) : List TrackerOp → ℕ
  | [] => 0
  | .mint _ det :: rest => (if baseOf det = c then 1 else 0) + countMints c rest
  | .update _ _ :: rest => countMints c rest

/-- The ordinals minted for class `c` along a sequence of operations
(the ordinal a mint writes into the label is the class-counter value read
back right after the write). -/
def mintedOrdinals (t : TrackerState) (c : GoStr) : List TrackerOp → List ℕ
  | [] => []
  | .mint now det :: rest =>
    if baseOf det = c then
      (lookupA (RenameFirstTime t now det).1.classCounter c).getD 0 ::
        mintedOrdinals (RenameFirstTime t now det).1 c rest
    else mintedOrdinals (RenameFirstTime t now det).1 c rest
  | .update nextTrack oldMatchedTrack :: rest =>
    mintedOrdinals (applyOp t (.update nextTrack oldMatchedTrack)) c rest

theorem updateTrack_classCounter (t : TrackerState) (nextTrack oldMatchedTrack : Track) :
    (applyOp t (.update nextTrack oldMatchedTrack)).classCounter = t.classCounter := by
  simp only [applyOp, UpdateTrack]
  split
  · rfl
  · split <;> rfl

theorem renameFirstTime_classCounter (t : TrackerState) (now : GoStr) (det : Track) :
    (RenameFirstTime t now det).1.classCounter =
      match lookupA t.classCounter (baseOf det) with
      | none => insertA t.classCounter (baseOf det) 0
      | some classCount => insertA t.classCounter (baseOf det) (classCount + 1) := rfl

theorem renameFirstTime_counter_at_base (t : TrackerState) (now : GoStr) (det : Track) :
    lookupA (RenameFirstTime t now det).1.classCounter (baseOf det) =
      some (match lookupA t.classCounter (baseOf det) with
        | none => 0
        | some classCount => classCount + 1) := by
  rw [renameFirstTime_classCounter]
  cases h : lookupA t.classCounter (baseOf det) <;>
    simp [h, lookupA_insertA_self]

theorem renameFirstTime_counter_at_other (t : TrackerState) (now : GoStr) (det : Track)
    (c : GoStr) (hc : baseOf det ≠ c) :
    lookupA (RenameFirstTime t now det).1.classCounter c = lookupA t.classCounter c := by
  rw [renameFirstTime_classCounter]
  cases h : lookupA t.classCounter (baseOf det) <;>
    simp [h, lookupA_insertA_ne _ _ _ _ hc]

theorem mintedOrdinals_eq_range_shift (c : GoStr) (ops : List TrackerOp) :
    ∀ t : TrackerState,
      (lookupA t.classCounter c = none →
        mintedOrdinals t c ops = List.range (countMints c ops)) ∧
      (∀ v, lookupA t.classCounter c = some v →
        mintedOrdinals t c ops =
          (List.range (countMints c ops)).map fun i => i + (v + 1)) := by
  induction ops with
  | nil => intro t; exact ⟨fun _ => rfl, fun v _ => by simp [mintedOrdinals, countMints]⟩
  | cons op rest ih =>
    intro t
    cases op with
    | update nextTrack oldMatchedTrack =>
      have hcc := updateTrack_classCounter t nextTrack oldMatchedTrack
      constructor
      · intro h
        simpa [mintedOrdinals, countMints] using
          ((ih (applyOp t (.update nextTrack oldMatchedTrack))).1 (by rw [hcc]; exact h))
      · intro v h
        simpa [mintedOrdinals, countMints] using
          ((ih (applyOp t (.update nextTrack oldMatchedTrack))).2 v (by rw [hcc]; exact h))
    | mint now det =>
      by_cases hb : baseOf det = c
      · subst hb
        constructor
        · intro h
          have hnew : lookupA (RenameFirstTime t now det).1.classCounter (baseOf det) =
              some 0 := by rw [renameFirstTime_counter_at_base, h]
          have htail := ((ih (RenameFirstTime t now det).1).2 0 hnew)
          simp only [mintedOrdinals, eq_self_iff_true, if_true, hnew, Option.getD_some,
            htail, countMints]
          rw [Nat.add_comm 1 (countMints (baseOf det) rest), List.range_succ_eq_map]
        · intro v h
          have hnew : lookupA (RenameFirstTime t now det).1.classCounter (baseOf det) =
              some (v + 1) := by rw [renameFirstTime_counter_at_base, h]
          have htail := ((ih (RenameFirstTime t now det).1).2 (v + 1) hnew)
          simp only [mintedOrdinals, eq_self_iff_true, if_true, hnew, Option.getD_some,
            htail, countMints]
          rw [Nat.add_comm 1 (countMints (baseOf det) rest), List.range_succ_eq_map,
            List.map_cons, List.map_map]
          refine congrArg₂ _ (by omega) (List.map_congr_left ?_)
          intro i _
          simp only [Function.comp_apply, Nat.succ_eq_add_one]
          omega
      · have hkeep := renameFirstTime_counter_at_other t now det c hb
        constructor
        · intro h
          simpa [mintedOrdinals, hb, countMints] using
            ((ih (RenameFirstTime t now det).1).1 (by rw [hkeep]; exact h))
        · intro v h
          simpa [mintedOrdinals, hb, countMints] using
            ((ih (RenameFirstTime t now det).1).2 v (by rw [hkeep]; exact h))

/-- C4: starting from the fresh tracker state, the ordinals minted for any
class `c` along any sequence of label-manager operations are exactly
0, 1, 2, … (`List.range`), hence strictly increasing and pairwise
distinct; moreover no operation ever decreases (resets or reuses) any
class counter — even after all tracks of the class disappear, since no
operation deletes counters. -/
theorem classCounter_mint_spec (c : GoStr) (ops : List TrackerOp) :
    mintedOrdinals TrackerState.initial c ops = List.range (countMints c ops) ∧
    (mintedOrdinals TrackerState.initial c ops).Pairwise (· < ·) ∧
    ∀ (t : TrackerState) (op : TrackerOp) (c' : GoStr) (v : ℕ),
      lookupA t.classCounter c' = some v →
      ∃ v', lookupA (applyOp t op).classCounter c' = some v' ∧ v ≤ v' := by
  have h1 : mintedOrdinals TrackerState.initial c ops =
      List.range (countMints c ops) :=
    (mintedOrdinals_eq_range_shift c ops TrackerState.initial).1 rfl
  refine ⟨h1, ?_, ?_⟩
  · rw [h1]
    exact List.pairwise_lt_range _
  · intro t op c' v h
    cases op with
    | update nextTrack oldMatchedTrack =>
      exact ⟨v, by rw [updateTrack_classCounter]; exact h, le_refl v⟩
    | mint now det =>
      by_cases hb : baseOf det = c'
      · subst hb
        refine ⟨v + 1, ?_, by omega⟩
        rw [applyOp, renameFirstTime_counter_at_base, h]
      · exact ⟨v, by rw [applyOp, renameFirstTime_counter_at_other t now det c' hb]; exact h,
          le_refl v⟩

/-- C4 witness: two successive mints of class `person` from the fresh
state yield ordinals [0, 1], and a further mint from a state whose counter
is 1 does not decrease it. -/
theorem classCounter_mint_spec_witness :
    mintedOrdinals TrackerState.initial "person".data
        [.mint "ts".data ⟨⟨⟨0, 0, 2, 2⟩, 1, "person".data⟩, 0⟩,
         .mint "ts".data ⟨⟨⟨5, 5, 7, 7⟩, 1, "person".data⟩, 0⟩] = [0, 1] ∧
    ∃ v', lookupA (applyOp ⟨[("person".data, 1)], []⟩
        (.mint "ts".data ⟨⟨⟨0, 0, 2, 2⟩, 1, "person".data⟩, 0⟩)).classCounter
        "person".data = some v' ∧ 1 ≤ v' :=
  ⟨((classCounter_mint_spec "person".data
      [.mint "ts".data ⟨⟨⟨0, 0, 2, 2⟩, 1, "person".data⟩, 0⟩,
       .mint "ts".data ⟨⟨⟨5, 5, 7, 7⟩, 1, "person".data⟩, 0⟩]).1).trans (by decide),
    (classCounter_mint_spec "person".data []).2.2 ⟨[("person".data, 1)], []⟩
      (.mint "ts".data ⟨⟨⟨0, 0, 2, 2⟩, 1, "person".data⟩, 0⟩) "person".data 1 (by decide)⟩

/-! ### Claims C1, C3, C8: the two loops of RenameFromMatches -/

theorem matchedStep_sentinel (oldDets newDets : List Track) (mtx : List (List ℚ))
    (k : ℕ) (acc : MatchAcc) :
    matchedStep oldDets newDets mtx k (-1) acc = some acc := by
  simp [matchedStep]

/-- A non-sentinel pair whose cost cell is inside the matrix is a no-op of
the match loop when its cost is zero or its indices miss the track lists:
the accumulator (state, partitions and `notUsed` deletions) is unchanged. -/
theorem matchedStep_skip (oldDets newDets : List Track) (mtx : List (List ℚ))
    (k : ℕ) (m : ℤ) (acc : MatchAcc) (row : List ℚ)
    (hrow : mtx[k]? = some row) (h0 : 0 ≤ m) (hlt : m < (row.length : ℤ))
    (hskip : row.getD m.toNat 0 = 0 ∨ newDets.length ≤ m.toNat ∨ oldDets.length ≤ k) :
    matchedStep oldDets newDets mtx k m acc = some acc := by
  have hm : ¬(m = -1) := by omega
  by_cases hc : row.getD m.toNat 0 = 0
  · simp only [matchedStep, hm, if_false, hrow]
    rw [if_pos ⟨h0, hlt⟩, if_neg (not_not_intro hc)]
  · have hb : ¬(0 ≤ m ∧ m.toNat < newDets.length ∧ k < oldDets.length) := by
      rcases hskip with h | h | h
      · exact absurd h hc
      · intro hcontra; omega
      · intro hcontra; omega
    simp only [matchedStep, hm, if_false, hrow]
    rw [if_pos ⟨h0, hlt⟩, if_pos hc, if_neg hb]

/-- Replacing a match-loop entry by the sentinel `-1` does not change the
loop's result, provided that entry's cost cell is inside the matrix and
the entry would have been skipped anyway (zero cost, or indices missing
the track lists). -/
theorem matchedLoop_set_sentinel (oldDets newDets : List Track) (mtx : List (List ℚ)) :
    ∀ (ms : List ℤ) (i k : ℕ) (acc : MatchAcc) (j : ℤ) (row : List ℚ),
      ms[i]? = some j → j ≠ -1 →
      mtx[k + i]? = some row → 0 ≤ j → j < (row.length : ℤ) →
      (row.getD j.toNat 0 = 0 ∨ newDets.length ≤ j.toNat ∨ oldDets.length ≤ k + i) →
      matchedLoop oldDets newDets mtx k (ms.set i (-1)) acc =
        matchedLoop oldDets newDets mtx k ms acc := by
  intro ms
  induction ms with
  | nil =>
    intro i k acc j row h1
    simp at h1
  | cons m rest ih =>
    intro i k acc j row h1 h2 h3 h4 h5 h6
    cases i with
    | zero =>
      simp only [List.getElem?_cons_zero, Option.some.injEq] at h1
      subst h1
      rw [Nat.add_zero] at h3 h6
      have hstepL := matchedStep_sentinel oldDets newDets mtx k acc
      have hstepR := matchedStep_skip oldDets newDets mtx k m acc row h3 h4 h5 h6
      show matchedLoop oldDets newDets mtx k (-1 :: rest) acc =
        matchedLoop oldDets newDets mtx k (m :: rest) acc
      simp only [matchedLoop, hstepL, hstepR]
    | succ i' =>
      simp only [List.getElem?_cons_succ] at h1
      show matchedLoop oldDets newDets mtx k (m :: rest.set i' (-1)) acc =
        matchedLoop oldDets newDets mtx k (m :: rest) acc
      simp only [matchedLoop]
      cases hstep : matchedStep oldDets newDets mtx k m acc with
      | none => rfl
      | some acc' =>
        exact ih i' (k + 1) acc' j row h1 h2
          (by rw [show k + 1 + i' = k + (i' + 1) by omega]; exact h3) h4 h5
          (by rw [show k + 1 + i' = k + (i' + 1) by omega]; exact h6)

/-- Whatever one match-loop iteration does, the deleted-index list either
stays unchanged or grows by the entry's column index, and the latter only
happens with a non-zero cost read from the corresponding matrix cell. -/
theorem matchedStep_used (oldDets newDets : List Track) (mtx : List (List ℚ))
    (k : ℕ) (m : ℤ) (acc acc' : MatchAcc)
    (h : matchedStep oldDets newDets mtx k m acc = some acc') :
    acc'.used = acc.used ∨
      ∃ row, mtx[k]? = some row ∧ 0 ≤ m ∧ m < (row.length : ℤ) ∧
        row.getD m.toNat 0 ≠ 0 ∧ acc'.used = acc.used ++ [m.toNat] := by
  by_cases hm : m = -1
  · left
    rw [hm, matchedStep_sentinel] at h
    cases h
    rfl
  · cases hrow : mtx[k]? with
    | none =>
      simp only [matchedStep, hm, if_false, hrow] at h
      exact Option.noConfusion h
    | some row =>
      simp only [matchedStep, hm, if_false, hrow] at h
      by_cases hb : 0 ≤ m ∧ m < (row.length : ℤ)
      · rw [if_pos hb] at h
        by_cases hc : row.getD m.toNat 0 ≠ 0
        · rw [if_pos hc] at h
          by_cases hbb : 0 ≤ m ∧ m.toNat < newDets.length ∧ k < oldDets.length
          · rw [if_pos hbb] at h
            cases hupd : UpdateTrack acc.st (newDets.getD m.toNat default)
                (oldDets.getD k default) with
            | none =>
              simp only [hupd] at h
              exact Option.noConfusion h
            | some r =>
              simp only [hupd] at h
              right
              refine ⟨row, rfl, hb.1, hb.2, hc, ?_⟩
              split at h <;> (cases h; rfl)
          · rw [if_neg hbb] at h
            cases h
            exact Or.inl rfl
        · rw [if_neg hc] at h
          cases h
          exact Or.inl rfl
      · rw [if_neg hb] at h
        cases h

/-- A column index all of whose solver assignments carry zero cost is
never deleted from `notUsed` by the match loop. -/
theorem matchedLoop_not_used (oldDets newDets : List Track) (mtx : List (List ℚ)) (x : ℕ) :
    ∀ (ms : List ℤ) (k : ℕ) (acc acc' : MatchAcc),
      matchedLoop oldDets newDets mtx k ms acc = some acc' →
      x ∉ acc.used →
      (∀ idx row, ms[idx]? = some (x : ℤ) → mtx[k + idx]? = some row →
        row.getD x 0 = 0) →
      x ∉ acc'.used := by
  intro ms
  induction ms with
  | nil =>
    intro k acc acc' h hx _
    cases h
    exact hx
  | cons m rest ih =>
    intro k acc acc' h hx hzero
    cases hstep : matchedStep oldDets newDets mtx k m acc with
    | none =>
      simp only [matchedLoop, hstep] at h
      exact Option.noConfusion h
    | some acc1 =>
      simp only [matchedLoop, hstep] at h
      have hx1 : x ∉ acc1.used := by
        rcases matchedStep_used oldDets newDets mtx k m acc acc1 hstep with
          heq | ⟨row, hrow, h0, hlt, hc, heq⟩
        · rw [heq]; exact hx
        · rw [heq]
          intro hmem
          rcases List.mem_append.mp hmem with hmem | hmem
          · exact hx hmem
          · have hxm : x = m.toNat := by simpa using hmem
            have hmx : m = (x : ℤ) := by omega
            have hz : row.getD x 0 = 0 :=
              hzero 0 row (by simp [hmx]) (by simpa using hrow)
            rw [hxm] at hz
            exact hc hz
      exact ih (k + 1) acc1 acc' h hx1 fun idx row h1 h2 =>
        hzero (idx + 1) row (by simpa using h1)
          (by rw [show k + (idx + 1) = k + 1 + idx by omega]; exact h2)

/-- The match loop cannot panic when every entry is the sentinel or a
column index inside its matrix row. -/
theorem matchedLoop_isSome (oldDets newDets : List Track) (mtx : List (List ℚ))
    (hlabels : ∀ tr ∈ oldDets, 2 ≤ (splitUnd tr.det.label).length) :
    ∀ (ms : List ℤ) (k : ℕ) (acc : MatchAcc),
      (∀ idx m, ms[idx]? = some m → m = -1 ∨
        ∃ row, mtx[k + idx]? = some row ∧ 0 ≤ m ∧ m < (row.length : ℤ)) →
      (matchedLoop oldDets newDets mtx k ms acc).isSome := by
  intro ms
  induction ms with
  | nil =>
    intro k acc _
    simp [matchedLoop]
  | cons m rest ih =>
    intro k acc h
    have hstep : ∃ acc', matchedStep oldDets newDets mtx k m acc = some acc' := by
      rcases h 0 m (by simp) with rfl | ⟨row, hrow, h0, hlt⟩
      · exact ⟨acc, matchedStep_sentinel oldDets newDets mtx k acc⟩
      · have hm : ¬(m = -1) := by omega
        rw [Nat.add_zero] at hrow
        simp only [matchedStep, hm, if_false, hrow]
        rw [if_pos ⟨h0, hlt⟩]
        by_cases hc : row.getD m.toNat 0 ≠ 0
        · rw [if_pos hc]
          by_cases hbb : 0 ≤ m ∧ m.toNat < newDets.length ∧ k < oldDets.length
          · rw [if_pos hbb]
            have hmem : oldDets.getD k default ∈ oldDets := by
              rw [List.getD_eq_getElem?_getD, List.getElem?_eq_getElem hbb.2.2]
              simp only [Option.getD_some]
              exact List.getElem_mem hbb.2.2
            obtain ⟨r, hr⟩ := updateTrack_isSome_of_label acc.st
              (newDets.getD m.toNat default) (oldDets.getD k default)
              (hlabels _ hmem)
            simp only [hr]
            split <;> exact ⟨_, rfl⟩
          · rw [if_neg hbb]
            exact ⟨acc, rfl⟩
        · rw [if_neg hc]
          exact ⟨acc, rfl⟩
    obtain ⟨acc', hstep⟩ := hstep
    simp only [matchedLoop, hstep]
    exact ih (k + 1) acc' fun idx m' h' =>
      (h (idx + 1) m' (by simpa using h')).imp id fun ⟨row, hrow, hrest⟩ =>
        ⟨row, by rw [show k + 1 + idx = k + (idx + 1) by omega]; exact hrow, hrest⟩

/-- C1: a solver pairing whose cost-matrix cell is exactly 0 is discarded
and treated as no match: running `RenameFromMatches` is indistinguishable
from running it with that pairing replaced by the sentinel `-1` (so the
previous track is not updated and nothing is deleted from `notUsed`), and
a new-detection column all of whose assignments carry cost 0 stays in
`notUsed`, the key set the fresh loop mints new identities from — one
`RenameFirstTime` per enumerated key.  In particular a previous track
whose row is all zeros (zero overlap with every new detection) is never
assigned a match, whatever column the cost-minimizing solver hands it. -/
theorem renameFromMatches_zero_cost_discarded
    (t : TrackerState) (now : GoStr) (order : List ℕ)
    (matchList : List ℤ) (mtx : List (List ℚ)) (oldDets newDets : List Track)
    (i : ℕ) (j : ℤ) (row : List ℚ)
    (hm : matchList[i]? = some j) (hj : j ≠ -1)
    (hrow : mtx[i]? = some row) (h0 : 0 ≤ j) (hlt : j < (row.length : ℤ))
    (hc : row.getD j.toNat 0 = 0) :
    RenameFromMatches t now order (matchList.set i (-1)) mtx oldDets newDets =
      RenameFromMatches t now order matchList mtx oldDets newDets ∧
    ((∀ (k : ℕ) (rowk : List ℚ), matchList[k]? = some j → mtx[k]? = some rowk →
        rowk.getD j.toNat 0 = 0) →
      j.toNat < newDets.length →
      ∀ acc, matchedLoop oldDets newDets mtx 0 matchList ⟨t, [], [], []⟩ = some acc →
        j.toNat ∈ unmatchedIdx newDets.length acc.used) := by
  constructor
  · unfold RenameFromMatches
    rw [matchedLoop_set_sentinel oldDets newDets mtx matchList i 0 ⟨t, [], [], []⟩ j row
      hm hj (by simpa using hrow) h0 hlt (Or.inl hc)]
  · intro hall hjlt acc hloop
    have hnot : j.toNat ∉ acc.used := by
      refine matchedLoop_not_used oldDets newDets mtx j.toNat matchList 0
        ⟨t, [], [], []⟩ acc hloop (by simp) ?_
      intro idx rowk h1 h2
      have hcast : ((j.toNat : ℤ)) = j := by omega
      rw [hcast] at h1
      exact hall idx rowk h1 (by simpa using h2)
    unfold unmatchedIdx
    refine List.mem_filter.mpr ⟨List.mem_range.mpr hjlt, by simp [hnot]⟩

/-- C1 witness: a single previous track assigned column 0 at cost 0 (its
row in the matrix is all zeros): the run equals the sentinel run, and
column 0 stays unmatched for the fresh loop. -/
theorem renameFromMatches_zero_cost_discarded_witness :
    (RenameFromMatches TrackerState.initial "ts".data [0] (([0] : List ℤ).set 0 (-1))
        [[0]] [⟨⟨⟨0, 0, 2, 2⟩, 1, "person_0_ts".data⟩, 0⟩]
        [⟨⟨⟨5, 5, 7, 7⟩, 1, "person".data⟩, 0⟩] =
      RenameFromMatches TrackerState.initial "ts".data [0] [0]
        [[0]] [⟨⟨⟨0, 0, 2, 2⟩, 1, "person_0_ts".data⟩, 0⟩]
        [⟨⟨⟨5, 5, 7, 7⟩, 1, "person".data⟩, 0⟩]) ∧
    ((∀ (k : ℕ) (rowk : List ℚ), ([0] : List ℤ)[k]? = some 0 →
        ([[0]] : List (List ℚ))[k]? = some rowk → rowk.getD (0 : ℤ).toNat 0 = 0) →
      (0 : ℤ).toNat < 1 →
      ∀ acc, matchedLoop [⟨⟨⟨0, 0, 2, 2⟩, 1, "person_0_ts".data⟩, 0⟩]
          [⟨⟨⟨5, 5, 7, 7⟩, 1, "person".data⟩, 0⟩] [[0]] 0 [0]
          ⟨TrackerState.initial, [], [], []⟩ = some acc →
        (0 : ℤ).toNat ∈ unmatchedIdx 1 acc.used) :=
  renameFromMatches_zero_cost_discarded TrackerState.initial "ts".data [0] [0] [[0]]
    [⟨⟨⟨0, 0, 2, 2⟩, 1, "person_0_ts".data⟩, 0⟩]
    [⟨⟨⟨5, 5, 7, 7⟩, 1, "person".data⟩, 0⟩] 0 0 [0]
    (by decide) (by decide) (by decide) (by decide) (by decide) (by decide)

/-- C8 (counterexample): `RenameFromMatches` is not total over arbitrary
integer entries — the entry `-2` (neither the sentinel nor a valid column)
is fed to `matchinMtx[0][-2]` before any bounds check, an out-of-bounds
access (Go index-out-of-range panic, modelled by `none`). -/
theorem renameFromMatches_oob_counterexample :
    RenameFromMatches TrackerState.initial "ts".data [] [-2] [[Rat.divInt (-1) 2]]
      [⟨⟨⟨0, 0, 2, 2⟩, 1, "person_0_ts".data⟩, 0⟩]
      [⟨⟨⟨5, 5, 7, 7⟩, 1, "person".data⟩, 0⟩] = none := by decide

/-- C8 (amended): `RenameFromMatches` is total for every matches slice
whose entries are each the sentinel `-1` or a column index within the
corresponding cost-matrix row, provided every previous track carries a
tracking-capable label (at least two underscore segments, as every label
the tracker mints does); within that domain, a pairing whose column or
row index falls outside the new-detection or old-track lists is skipped
after the cost is read and treated as no match — identical to the
sentinel run — with no out-of-bounds access. -/
theorem renameFromMatches_total_on_contract
    (t : TrackerState) (now : GoStr) (order : List ℕ)
    (matchList : List ℤ) (mtx : List (List ℚ)) (oldDets newDets : List Track)
    (hlabels : ∀ tr ∈ oldDets, 2 ≤ (splitUnd tr.det.label).length)
    (hdom : ∀ (idx : ℕ) (m : ℤ), matchList[idx]? = some m → m = -1 ∨
      ∃ row : List ℚ, mtx[idx]? = some row ∧ 0 ≤ m ∧ m < (row.length : ℤ)) :
    (RenameFromMatches t now order matchList mtx oldDets newDets).isSome ∧
    ∀ (i : ℕ) (j : ℤ) (row : List ℚ), matchList[i]? = some j → mtx[i]? = some row →
      0 ≤ j → j < (row.length : ℤ) →
      (newDets.length ≤ j.toNat ∨ oldDets.length ≤ i) →
      RenameFromMatches t now order (matchList.set i (-1)) mtx oldDets newDets =
        RenameFromMatches t now order matchList mtx oldDets newDets := by
  constructor
  · have hl := matchedLoop_isSome oldDets newDets mtx hlabels matchList 0 ⟨t, [], [], []⟩
      (fun idx m h => by simpa using hdom idx m h)
    unfold RenameFromMatches
    cases hcase : matchedLoop oldDets newDets mtx 0 matchList ⟨t, [], [], []⟩ with
    | none => rw [hcase] at hl; simp at hl
    | some acc => simp
  · intro i j row h1 h2 h3 h4 h5
    unfold RenameFromMatches
    rw [matchedLoop_set_sentinel oldDets newDets mtx matchList i 0 ⟨t, [], [], []⟩ j row
      h1 (by omega) (by simpa using h2) h3 h4
      (Or.inr (h5.imp_right fun h => by omega))]

/-- C8 witness: entries `[-1, 0]` are inside the contract; row 1 exists in
the matrix but is outside the single-element previous-track list, so the
pairing is skipped and the call still succeeds. -/
theorem renameFromMatches_total_on_contract_witness :
    (RenameFromMatches TrackerState.initial "ts".data [0] [-1, 0]
        [[0], [Rat.divInt (-1) 2]] [⟨⟨⟨0, 0, 2, 2⟩, 1, "person_0_ts".data⟩, 0⟩]
        [⟨⟨⟨5, 5, 7, 7⟩, 1, "person".data⟩, 0⟩]).isSome ∧
    ∀ (i : ℕ) (j : ℤ) (row : List ℚ), ([-1, 0] : List ℤ)[i]? = some j →
      ([[0], [Rat.divInt (-1) 2]] : List (List ℚ))[i]? = some row →
      0 ≤ j → j < (row.length : ℤ) →
      ((1 : ℕ) ≤ j.toNat ∨ (1 : ℕ) ≤ i) →
      RenameFromMatches TrackerState.initial "ts".data [0] (([-1, 0] : List ℤ).set i (-1))
          [[0], [Rat.divInt (-1) 2]] [⟨⟨⟨0, 0, 2, 2⟩, 1, "person_0_ts".data⟩, 0⟩]
          [⟨⟨⟨5, 5, 7, 7⟩, 1, "person".data⟩, 0⟩] =
        RenameFromMatches TrackerState.initial "ts".data [0] [-1, 0]
          [[0], [Rat.divInt (-1) 2]] [⟨⟨⟨0, 0, 2, 2⟩, 1, "person_0_ts".data⟩, 0⟩]
          [⟨⟨⟨5, 5, 7, 7⟩, 1, "person".data⟩, 0⟩] :=
  renameFromMatches_total_on_contract TrackerState.initial "ts".data [0] [-1, 0]
    [[0], [Rat.divInt (-1) 2]] [⟨⟨⟨0, 0, 2, 2⟩, 1, "person_0_ts".data⟩, 0⟩]
    [⟨⟨⟨5, 5, 7, 7⟩, 1, "person".data⟩, 0⟩]
    (by decide)
    (by
      intro idx m h
      match idx with
      | 0 =>
        simp only [List.getElem?_cons_zero, Option.some.injEq] at h
        exact Or.inl h.symm
      | 1 =>
        simp only [List.getElem?_cons_succ, List.getElem?_cons_zero,
          Option.some.injEq] at h
        refine Or.inr ⟨[Rat.divInt (-1) 2], by decide, by omega, by
          rw [← h]; decide⟩
      | n + 2 => simp at h)

/-- C3 (code bug): the fresh loop of `RenameFromMatches` ranges over the
`notUsed` Go map, whose enumeration order is unspecified — both `[0, 1]`
and `[1, 0]` are legal enumerations of the unmatched key set `{0, 1}` —
and the two orders assign the minted labels `person_0` / `person_1` to
different detections, so the fresh tracks are not produced in a
deterministic, index-stable order and two runs on identical inputs can
assign different labels. -/
theorem renameFromMatches_fresh_order_nondeterministic :
    ([0, 1] : List ℕ).Perm (unmatchedIdx 2 []) ∧
    ([1, 0] : List ℕ).Perm (unmatchedIdx 2 []) ∧
    (RenameFromMatches TrackerState.initial "ts".data [0, 1] [] [] []
        [⟨⟨⟨0, 0, 2, 2⟩, 1, "person".data⟩, 0⟩,
         ⟨⟨⟨5, 5, 7, 7⟩, 1, "person".data⟩, 0⟩]).map (fun out => out.2.1) ≠
      (RenameFromMatches TrackerState.initial "ts".data [1, 0] [] [] []
        [⟨⟨⟨0, 0, 2, 2⟩, 1, "person".data⟩, 0⟩,
         ⟨⟨⟨5, 5, 7, 7⟩, 1, "person".data⟩, 0⟩]).map (fun out => out.2.1) := by
  decide
